import Mathlib

/-!
Shallow embedding of the logsy blockchain node (src/blockchain.py,
src/transaction.py, src/peer.py) and verification of its specification
claims.

Conventions of the embedding:
* Transactions in the source are JSON dictionaries whose keys may be
  absent (`dict.get`), so every transaction field is an `Option`.
* Python floats (amounts, timestamps) are modelled as rationals.
* SHA-256 is an external library call (`hashlib.sha256`), so the block
  hash function is an explicit parameter `H : BlockData → String`, and
  the transaction-id digest is a parameter `txid`.  Likewise ECDSA
  signature verification (src/wallet.py `verify_transaction_signature`)
  is a parameter `verify`.
* File persistence (`save_blockchain` / `load_blockchain`) is an external
  side effect and does not change the in-memory state being modelled, so
  it is omitted.
* Proof-of-work mining (`Block.mine_block`) is an unbounded search in the
  source; it is modelled with explicit fuel, returning `none` when the
  fuel runs out before a proof is found ("mining did not complete").
-/

namespace Logsy

/-- A transaction dictionary (keys: `sender`, `recipient`, `amount`,
`timestamp`, `signature`, `sender_public_key`, `transaction_id`); each
field is optional because the source accesses keys with `in` / `.get`. -/
structure Tx where
  sender : Option String
  recipient : Option String
  amount : Option Rat
  timestamp : Option Rat
  signature : Option String
  sender_public_key : Option String
  transaction_id : Option String
  deriving DecidableEq, Repr

/-- `Block` (src/blockchain.py lines 7-15). -/
structure Block where
  index : Nat
  timestamp : Rat
  transactions : List Tx
  previous_hash : String
  nonce : Nat
  hash : String
  deriving DecidableEq, Repr

/-- The content serialized by `Block.calculate_hash` (lines 17-26):
`index`, `timestamp`, `transactions`, `previous_hash`, `nonce` — the
stored `hash` field itself is not part of the digest input. -/
structure BlockData where
  index : Nat
  timestamp : Rat
  transactions : List Tx
  previous_hash : String
  nonce : Nat
  deriving DecidableEq, Repr

/-- The SHA-256 digest of the canonical block encoding, as an abstract
function of the hashed content. -/
abbrev HashFun := BlockData → String

def Block.data (b : Block) : BlockData :=
  ⟨b.index, b.timestamp, b.transactions, b.previous_hash, b.nonce⟩

/-- `Block.calculate_hash` (lines 17-26). -/
def Block.calculate_hash (H : HashFun) (b : Block) : String :=
  H b.data

/-- `Block.__init__` (lines 8-15): the constructor computes the
provisional hash from the five content fields. -/
def mkBlock (H : HashFun) (index : Nat) (timestamp : Rat)
    (transactions : List Tx) (previous_hash : String) (nonce : Nat) : Block :=
  { index := index, timestamp := timestamp, transactions := transactions,
    previous_hash := previous_hash, nonce := nonce,
    hash := H ⟨index, timestamp, transactions, previous_hash, nonce⟩ }

/-- The target string `"0" * difficulty` (line 30). -/
def pow_target (difficulty : Nat) : String :=
  String.mk (List.replicate difficulty '0')

/-- The proof-of-work condition `hash[:difficulty] == "0" * difficulty`
(lines 33 and 181). -/
def pow_ok (difficulty : Nat) (h : String) : Bool :=
  h.take difficulty == pow_target difficulty

/-- `Block.mine_block` (lines 28-40): repeatedly increment `nonce` and
recompute the hash until the proof-of-work condition holds.  The source
loop is unbounded; `fuel` bounds the number of iterations modelled, with
`none` meaning the search did not complete within the fuel. -/
def Block.mine_block (H : HashFun) (difficulty : Nat) : Nat → Block → Option Block
  | 0, b => if pow_ok difficulty b.hash then some b else none
  | fuel + 1, b =>
    if pow_ok difficulty b.hash then some b
    else
      Block.mine_block H difficulty fuel
        { b with nonce := b.nonce + 1,
                 hash := Block.calculate_hash H { b with nonce := b.nonce + 1 } }

/-- `Blockchain` state (lines 66-79); the data directory and file path are
external persistence concerns and are omitted. -/
structure Blockchain where
  chain : List Block
  difficulty : Nat
  mining_reward : Rat
  mempool : List Tx
  deriving DecidableEq, Repr

/-- `Blockchain.get_latest_block` (lines 95-97): `chain[-1]`, which raises
on an empty chain, hence `Option`. -/
def Blockchain.get_latest_block (bc : Blockchain) : Option Block :=
  bc.chain.getLast?

/-- The required-fields check shared by `add_transaction_to_mempool`
(line 101) and `validate_transaction` (src/transaction.py line 59). -/
def requiredFieldsPresent (t : Tx) : Bool :=
  t.sender.isSome && t.recipient.isSome && t.amount.isSome &&
    t.timestamp.isSome && t.signature.isSome

/-- `Blockchain.add_transaction_to_mempool` (lines 99-108). -/
def Blockchain.add_transaction_to_mempool (bc : Blockchain) (t : Tx) :
    Bool × Blockchain :=
  if ¬ requiredFieldsPresent t then (false, bc)
  else if t.sender == some "system" || t.sender == some "genesis" then (false, bc)
  else (true, { bc with mempool := bc.mempool ++ [t] })

/-- `Blockchain.get_pending_transactions` (lines 110-112): `mempool[:limit]`. -/
def Blockchain.get_pending_transactions (bc : Blockchain) (limit : Nat) : List Tx :=
  bc.mempool.take limit

/-- `Blockchain.mine_pending_transactions` (lines 114-151).  `now_reward`
and `now_block` are the two `time.time()` readings (lines 122 and 133).
Returns `none` when the chain is empty (`chain[-1]` raises) or the
proof-of-work search does not complete within `fuel`. -/
def Blockchain.mine_pending_transactions (H : HashFun) (bc : Blockchain)
    (mining_reward_address : String) (now_reward now_block : Rat)
    (fuel : Nat) : Option (Block × Blockchain) :=
  match bc.chain.getLast? with
  | none => none
  | some latest =>
    let txs0 := bc.get_pending_transactions 10
    let reward_transaction : Tx :=
      { sender := some "system", recipient := some mining_reward_address,
        amount := some bc.mining_reward, timestamp := some now_reward,
        signature := some "mining_reward", sender_public_key := none,
        transaction_id := none }
    let transactions := txs0 ++ [reward_transaction]
    -- line 128: self.mempool = self.mempool[len(transactions)-1:]
    let mempool1 := bc.mempool.drop (transactions.length - 1)
    let new_block := mkBlock H bc.chain.length now_block transactions latest.hash 0
    match Block.mine_block H bc.difficulty fuel new_block with
    | none => none
    | some mined =>
      let chain2 := bc.chain ++ [mined]
      -- lines 148-149: second slicing pass after the append
      let mined_tx_count := transactions.length
      let mempool2 :=
        if 0 < mined_tx_count then mempool1.drop (mined_tx_count - 1) else mempool1
      some (mined, { bc with chain := chain2, mempool := mempool2 })

/-- One iteration step of the balance loop in `Blockchain.get_balance`
(lines 157-162): credit the recipient, then debit the sender. -/
def tx_step (address : String) (balance : Rat) (t : Tx) : Rat :=
  let b1 := if t.recipient == some address then balance + t.amount.getD 0 else balance
  if t.sender == some address then b1 - t.amount.getD 0 else b1

/-- `Blockchain.get_balance` (lines 153-164). -/
def Blockchain.get_balance (bc : Blockchain) (address : String) : Rat :=
  bc.chain.foldl (fun bal b => b.transactions.foldl (tx_step address) bal) 0

/-- The three per-block checks of the validation loop
(lines 172-182): recomputed hash, previous-hash link, proof of work. -/
def chain_step_ok (H : HashFun) (difficulty : Nat)
    (previous_block current_block : Block) : Bool :=
  (current_block.hash == Block.calculate_hash H current_block) &&
  (current_block.previous_hash == previous_block.hash) &&
  pow_ok difficulty current_block.hash

/-- The loop of `is_chain_valid` from a given predecessor block onward. -/
def chain_valid_from (H : HashFun) (difficulty : Nat) :
    Block → List Block → Bool
  | _, [] => true
  | prev, cur :: rest =>
    chain_step_ok H difficulty prev cur && chain_valid_from H difficulty cur rest

/-- Validity of a block list at a given difficulty: the body of
`Blockchain.is_chain_valid` (lines 166-184), iterating `i` from 1. -/
def chain_valid (H : HashFun) (difficulty : Nat) : List Block → Bool
  | [] => true
  | b :: rest => chain_valid_from H difficulty b rest

/-- `Blockchain.is_chain_valid` (lines 166-184). -/
def Blockchain.is_chain_valid (H : HashFun) (bc : Blockchain) : Bool :=
  chain_valid H bc.difficulty bc.chain

/-- `Blockchain.replace_chain` (lines 186-205).  The source validates the
candidate through a throwaway `Blockchain(self.difficulty, self.mining_reward)`
instance whose chain is set to the candidate, i.e. the candidate is checked
in isolation at this node's difficulty; the throwaway instance's file I/O is
external.  Returns the result flag and the (possibly replaced) state. -/
def Blockchain.replace_chain (H : HashFun) (bc : Blockchain)
    (new_chain : List Block) : Bool × Blockchain :=
  if new_chain.length ≤ bc.chain.length then (false, bc)
  else if chain_valid H bc.difficulty new_chain then
    (true, { bc with chain := new_chain })
  else (false, bc)

/-! ## Transaction validator and pool (src/transaction.py) -/

/-- The digest computed by `Transaction.calculate_transaction_id`
(src/transaction.py lines 18-27): SHA-256 of the canonical encoding of
(`sender`, `recipient`, `amount`, `timestamp`), abstracted as a function
of those four values. -/
abbrev TxIdFun := String × String × Rat × Rat → String

/-- The four fields `Transaction.from_dict` feeds into the transaction id
(lines 41-51 and 18-27).  `from_dict` indexes the required keys directly,
which is only reached on dictionaries that contain them; the defaults are
inert for such inputs. -/
def txCore (t : Tx) : String × String × Rat × Rat :=
  (t.sender.getD "", t.recipient.getD "", t.amount.getD 0, t.timestamp.getD 0)

/-- `TransactionValidator._check_sufficient_balance` (lines 88-91). -/
def check_sufficient_balance (bc : Blockchain) (t : Tx) : Bool :=
  decide (t.amount.getD 0 ≤ bc.get_balance (t.sender.getD ""))

/-- `TransactionValidator._validate_signature` (lines 93-101); the ECDSA
verification itself (src/wallet.py `verify_transaction_signature`) is the
parameter `verify`. -/
def validate_signature (verify : Tx → String → Bool) (t : Tx) : Bool :=
  match t.sender_public_key with
  | none => false
  | some pk => verify t pk

/-- `TransactionValidator._check_double_spending` (lines 103-120): the
recomputed id is searched in the confirmed blocks (stored
`transaction_id` key) and in `blockchain.mempool` (id recomputed). -/
def check_double_spending (txid : TxIdFun) (bc : Blockchain) (t : Tx) : Bool :=
  let tx_id := txid (txCore t)
  bc.chain.any (fun b => b.transactions.any (fun tx => tx.transaction_id == some tx_id)) ||
    bc.mempool.any (fun tx => txid (txCore tx) == tx_id)

/-- `TransactionValidator.validate_transaction` (lines 57-86), including
the second `sender == "system"` branch of lines 72-79 exactly as written
(it is unreachable because the branch of line 67 already returns for that
sender). -/
def validate_transaction (verify : Tx → String → Bool) (txid : TxIdFun)
    (bc : Blockchain) (t : Tx) : Bool × String :=
  if ¬ requiredFieldsPresent t then
    (false, "Missing required transaction fields")
  else if t.amount.getD 0 ≤ 0 then
    (false, "Transaction amount must be positive")
  else if t.sender == t.recipient then
    (false, "Sender and recipient cannot be the same")
  else if t.sender == some "system" || t.sender == some "genesis" then
    if t.signature == some "mining_reward" || t.signature == some "genesis_signature" then
      (true, "System transaction")
    else
      (false, "Invalid system transaction signature")
  else if t.sender == some "system" then
    if t.signature == some "SYSTEM" || t.signature == some "mining_reward" ||
        t.signature == some "genesis_signature" then
      (true, "System transaction valid")
    else if t.signature == some "" then
      (true, "System transaction valid")
    else
      (false, "Invalid system transaction signature")
  else if ¬ check_sufficient_balance bc t then
    (false, "Insufficient balance")
  else if ¬ validate_signature verify t then
    (false, "Invalid transaction signature")
  else if check_double_spending txid bc t then
    (false, "Double spending detected")
  else
    (true, "Transaction valid")

/-- `TransactionPool` state (lines 122-127); the validator consults the
`Blockchain` passed alongside. -/
structure TransactionPool where
  max_pool_size : Nat
  pending_transactions : List Tx
  deriving DecidableEq, Repr

/-- `TransactionPool.add_transaction` (lines 129-149): validate, check the
capacity bound, assign the derived id when absent, append. -/
def TransactionPool.add_transaction (verify : Tx → String → Bool) (txid : TxIdFun)
    (bc : Blockchain) (pool : TransactionPool) (t : Tx) :
    Bool × String × TransactionPool :=
  let v := validate_transaction verify txid bc t
  if ¬ v.1 then (false, v.2, pool)
  else if pool.max_pool_size ≤ pool.pending_transactions.length then
    (false, "Transaction pool is full", pool)
  else
    let t2 := if t.transaction_id.isNone
      then { t with transaction_id := some (txid (txCore t)) } else t
    (true, "Transaction added to pool",
      { pool with pending_transactions := pool.pending_transactions ++ [t2] })

/-! ## Peer maintenance (src/peer.py) -/

/-- `P2PPeer` (src/peer.py lines 43-52); the socket handle is external. -/
structure Peer where
  address : String
  port : Nat
  peer_id : String
  last_seen : Rat
  connection_attempts : Nat
  is_connected : Bool
  deriving DecidableEq, Repr

/-- `P2PNetwork._cleanup_dead_peers` (lines 330-342): collect the ids of
peers that are disconnected, have at least 3 connection attempts, and were
last seen more than 300 seconds ago, then delete those ids from the peer
dictionary (modelled as an association list keyed by peer id). -/
def cleanup_dead_peers (current_time : Rat) (peers : List (String × Peer)) :
    List (String × Peer) :=
  let dead_peers :=
    (peers.filter (fun e =>
      !e.2.is_connected && decide (3 ≤ e.2.connection_attempts) &&
        decide ((300 : Rat) < current_time - e.2.last_seen))).map Prod.fst
  peers.filter (fun e => !(dead_peers.contains e.1))

/-! ## Concrete instances used by witnesses and counterexamples -/

/-- A concrete hash function instance. -/
def H0 : HashFun := fun _ => "h"

/-- A concrete signature-verification instance (the claims settled on
concrete inputs do not depend on the ECDSA internals). -/
def verify0 : Tx → String → Bool := fun _ _ => true

/-- A concrete transaction-id digest instance. -/
def txid0 : TxIdFun := fun _ => "id0"

/-- A genesis-position block with an arbitrary stored hash. -/
def b0W : Block :=
  { index := 0, timestamp := 0, transactions := [], previous_hash := "0",
    nonce := 0, hash := "x" }

/-- A user transaction template indexed by `i` (distinct timestamps). -/
def userTx (i : Nat) : Tx :=
  { sender := some "alice", recipient := some "bob", amount := some 1,
    timestamp := some (i : Rat), signature := some "sig",
    sender_public_key := some "pk", transaction_id := some (toString i) }

/-- A blockchain whose mempool holds 11 pending user transactions. -/
def bc11 : Blockchain :=
  { chain := [b0W], difficulty := 0, mining_reward := 10,
    mempool := (List.range 11).map userTx }

/-- A confirmed system transaction crediting alice with 100. -/
def txCredit : Tx :=
  { sender := some "system", recipient := some "alice", amount := some 100,
    timestamp := some 0, signature := some "mining_reward",
    sender_public_key := none, transaction_id := none }

/-- A block containing the alice credit. -/
def blkCredit : Block :=
  { index := 0, timestamp := 0, previous_hash := "0", nonce := 0, hash := "x",
    transactions := [txCredit] }

/-- A chain state giving alice a confirmed balance of 100. -/
def bcC2 : Blockchain :=
  { chain := [blkCredit], difficulty := 0, mining_reward := 10, mempool := [] }

/-- An empty transaction pool at the default capacity. -/
def poolC2 : TransactionPool :=
  { max_pool_size := 1000, pending_transactions := [] }

/-- A signed user transaction from alice to bob. -/
def txAlice : Tx :=
  { sender := some "alice", recipient := some "bob", amount := some 5,
    timestamp := some 1, signature := some "sig",
    sender_public_key := some "pk", transaction_id := none }

/-- A system-sender transaction carrying the allow-listed signature value
`"SYSTEM"` from the spec. -/
def txSYS : Tx :=
  { sender := some "system", recipient := some "alice", amount := some 1,
    timestamp := some 0, signature := some "SYSTEM",
    sender_public_key := none, transaction_id := none }

/-- The second block of an invalid chain: its `previous_hash` does not
match its predecessor's hash. -/
def bBad : Block :=
  { index := 1, timestamp := 0, transactions := [], previous_hash := "WRONG",
    nonce := 0, hash := "h" }

def bcBad : Blockchain :=
  { chain := [b0W, bBad], difficulty := 0, mining_reward := 10, mempool := [] }

/-! ## C1: fork choice (`replace_chain`) -/

/-- C1: for every candidate chain and every current state, `replace_chain`
returns false when the candidate is not strictly longer (regardless of
validity), returns false when the candidate fails the chain-validity check
(even if longer), returns true and installs the candidate exactly when it
is strictly longer and valid, and leaves the current chain unchanged
whenever it returns false. -/
theorem C1_replace_chain_fork_choice (H : HashFun) (bc : Blockchain)
    (cand : List Block) :
    (cand.length ≤ bc.chain.length → bc.replace_chain H cand = (false, bc)) ∧
    (chain_valid H bc.difficulty cand = false →
      (bc.replace_chain H cand).1 = false) ∧
    ((bc.replace_chain H cand).1 = true ↔
      bc.chain.length < cand.length ∧ chain_valid H bc.difficulty cand = true) ∧
    ((bc.replace_chain H cand).1 = true →
      (bc.replace_chain H cand).2 = { bc with chain := cand }) ∧
    ((bc.replace_chain H cand).1 = false → (bc.replace_chain H cand).2 = bc) := by
  unfold Blockchain.replace_chain
  by_cases hlen : cand.length ≤ bc.chain.length
  · simp [hlen]
  · by_cases hv : chain_valid H bc.difficulty cand
    · simp [hlen, hv]
      omega
    · simp only [Bool.not_eq_true] at hv
      simp [hlen, hv]

/-- Witness for C1 at a concrete input: an empty candidate against a
one-block chain is refused and the state is unchanged. -/
theorem C1_witness :
    Blockchain.replace_chain H0 bcC2 [] = (false, bcC2) :=
  (C1_replace_chain_fork_choice H0 bcC2 []).1 (by decide)

/-! ## C6: full-chain validation (`is_chain_valid`) -/

theorem chain_valid_cons_cons (H : HashFun) (d : Nat) (a b : Block)
    (r : List Block) :
    chain_valid H d (a :: b :: r) =
      (chain_step_ok H d a b && chain_valid H d (b :: r)) := rfl

theorem chain_valid_iff_forall (H : HashFun) (d : Nat) :
    ∀ c : List Block, chain_valid H d c = true ↔
      ∀ i (h : i + 1 < c.length),
        chain_step_ok H d (c.get ⟨i, by omega⟩) (c.get ⟨i + 1, h⟩) = true
  | [] => by
    simp only [chain_valid, List.length_nil, true_iff]
    intro i h
    omega
  | [a] => by
    simp only [chain_valid, chain_valid_from, List.length_singleton, true_iff]
    intro i h
    omega
  | a :: b :: r => by
    rw [chain_valid_cons_cons, Bool.and_eq_true, chain_valid_iff_forall H d (b :: r)]
    constructor
    · rintro ⟨hab, hrest⟩ i h
      match i with
      | 0 => exact hab
      | j + 1 =>
        have hj : j + 1 < (b :: r).length := by
          simp only [List.length_cons] at h ⊢
          omega
        exact hrest j hj
    · intro hall
      refine ⟨hall 0 (by simp), fun j hj => ?_⟩
      have h2 : j + 1 + 1 < (a :: b :: r).length := by
        simp only [List.length_cons] at hj ⊢
        omega
      exact hall (j + 1) h2

/-- C6: `is_chain_valid` returns true iff for every index `i` from 1 on,
block `i`'s stored hash equals its recomputed hash, block `i`'s
`previous_hash` equals block `i-1`'s hash, and block `i`'s hash meets the
proof-of-work condition at the configured difficulty.  The function is
total (never raises); "false on first violation" is the short-circuit
evaluation of the conjunction. -/
theorem C6_is_chain_valid_characterization (H : HashFun) (bc : Blockchain) :
    Blockchain.is_chain_valid H bc = true ↔
      ∀ i (h : i + 1 < bc.chain.length),
        (bc.chain.get ⟨i + 1, h⟩).hash
            = Block.calculate_hash H (bc.chain.get ⟨i + 1, h⟩) ∧
        (bc.chain.get ⟨i + 1, h⟩).previous_hash
            = (bc.chain.get ⟨i, by omega⟩).hash ∧
        pow_ok bc.difficulty (bc.chain.get ⟨i + 1, h⟩).hash = true := by
  rw [Blockchain.is_chain_valid, chain_valid_iff_forall]
  constructor
  · intro hall i h
    have hstep := hall i h
    simp only [chain_step_ok, Bool.and_eq_true, beq_iff_eq] at hstep
    exact ⟨hstep.1.1, hstep.1.2, hstep.2⟩
  · intro hall i h
    have hstep := hall i h
    simp only [chain_step_ok, Bool.and_eq_true, beq_iff_eq]
    exact ⟨⟨hstep.1, hstep.2.1⟩, hstep.2.2⟩

/-- Witness for C6 at a concrete input: a one-block chain is valid, with
the per-index condition vacuous. -/
theorem C6_witness : Blockchain.is_chain_valid H0 bcC2 = true :=
  (C6_is_chain_valid_characterization H0 bcC2).mpr
    (fun _ h => absurd h (by simp [bcC2, blkCredit]))

/-! ## C5: mining produces a proof-of-work block and preserves validity -/

/-- One step of the mining loop (lines 34-35): bump the nonce, recompute
the hash.  Definitionally the block passed to the recursive call of
`Block.mine_block`. -/
def bump (H : HashFun) (b : Block) : Block :=
  { b with nonce := b.nonce + 1,
           hash := Block.calculate_hash H { b with nonce := b.nonce + 1 } }

theorem mine_block_pow (H : HashFun) (d : Nat) (fuel : Nat) :
    ∀ b b2, Block.mine_block H d fuel b = some b2 → pow_ok d b2.hash = true := by
  induction fuel with
  | zero =>
    intro b b2 h
    unfold Block.mine_block at h
    split at h
    · cases h
      assumption
    · cases h
  | succ n ih =>
    intro b b2 h
    unfold Block.mine_block at h
    split at h
    · cases h
      assumption
    · exact ih _ b2 h

theorem mine_block_shape (H : HashFun) (d : Nat) (fuel : Nat) :
    ∀ b b2, Block.mine_block H d fuel b = some b2 →
      b2.index = b.index ∧ b2.timestamp = b.timestamp ∧
      b2.transactions = b.transactions ∧ b2.previous_hash = b.previous_hash := by
  induction fuel with
  | zero =>
    intro b b2 h
    unfold Block.mine_block at h
    split at h
    · cases h
      exact ⟨rfl, rfl, rfl, rfl⟩
    · cases h
  | succ n ih =>
    intro b b2 h
    unfold Block.mine_block at h
    split at h
    · cases h
      exact ⟨rfl, rfl, rfl, rfl⟩
    · exact ih (bump H b) b2 h

theorem mine_block_hash_recomputes (H : HashFun) (d : Nat) (fuel : Nat) :
    ∀ b b2, b.hash = Block.calculate_hash H b →
      Block.mine_block H d fuel b = some b2 →
      b2.hash = Block.calculate_hash H b2 := by
  induction fuel with
  | zero =>
    intro b b2 hb h
    unfold Block.mine_block at h
    split at h
    · cases h
      exact hb
    · cases h
  | succ n ih =>
    intro b b2 hb h
    unfold Block.mine_block at h
    split at h
    · cases h
      exact hb
    · exact ih (bump H b) b2 rfl h

theorem chain_valid_from_append (H : HashFun) (d : Nat) :
    ∀ (rest : List Block) (prev m : Block),
      chain_valid_from H d prev (rest ++ [m]) =
        (chain_valid_from H d prev rest &&
          chain_step_ok H d ((prev :: rest).getLast (by simp)) m)
  | [], prev, m => by
    simp [chain_valid_from]
  | cur :: rs, prev, m => by
    show (chain_step_ok H d prev cur && chain_valid_from H d cur (rs ++ [m]))
        = ((chain_step_ok H d prev cur && chain_valid_from H d cur rs) &&
            chain_step_ok H d ((prev :: cur :: rs).getLast (by simp)) m)
    rw [chain_valid_from_append H d rs cur m,
      List.getLast_cons (show cur :: rs ≠ [] from by simp), Bool.and_assoc]

theorem chain_valid_append (H : HashFun) (d : Nat) (c : List Block)
    (m latest : Block) (hl : c.getLast? = some latest) :
    chain_valid H d (c ++ [m]) =
      (chain_valid H d c && chain_step_ok H d latest m) := by
  match c with
  | [] => simp at hl
  | b :: rest =>
    have hlast : (b :: rest).getLast (by simp) = latest := by
      rw [List.getLast?_eq_getLast (b :: rest) (by simp)] at hl
      exact Option.some_injective _ hl
    simp only [List.cons_append, chain_valid, chain_valid_from_append, hlast]

/-- The block constructor establishes `hash = calculate_hash` (src line 15). -/
theorem mkBlock_hash (H : HashFun) (index : Nat) (timestamp : Rat)
    (transactions : List Tx) (previous_hash : String) (nonce : Nat) :
    (mkBlock H index timestamp transactions previous_hash nonce).hash
      = Block.calculate_hash H (mkBlock H index timestamp transactions previous_hash nonce) :=
  rfl

/-- C5 (amended): for every chain state that passes the full validity
check, if `mine_pending_transactions` completes, the mined block's hash
satisfies the proof-of-work condition at the configured difficulty and the
resulting chain passes the full validity check. -/
theorem C5_mining_preserves_validity (H : HashFun) (bc : Blockchain)
    (addr : String) (t1 t2 : Rat) (fuel : Nat) (blk : Block) (bc2 : Blockchain)
    (hvalid : Blockchain.is_chain_valid H bc = true)
    (hmine : bc.mine_pending_transactions H addr t1 t2 fuel = some (blk, bc2)) :
    pow_ok bc.difficulty blk.hash = true ∧
      Blockchain.is_chain_valid H bc2 = true := by
  unfold Blockchain.mine_pending_transactions at hmine
  split at hmine
  · cases hmine
  · rename_i latest hlast
    simp only at hmine
    split at hmine
    · cases hmine
    · rename_i mined hblock
      obtain ⟨rfl, rfl⟩ : mined = blk ∧ _ = bc2 := by
        constructor
        · exact (Prod.mk.injEq _ _ _ _ ▸ Option.some_injective _ hmine).1
        · exact (Prod.mk.injEq _ _ _ _ ▸ Option.some_injective _ hmine).2
      refine ⟨mine_block_pow H bc.difficulty fuel _ _ hblock, ?_⟩
      have hshape := mine_block_shape H bc.difficulty fuel _ _ hblock
      have hhash := mine_block_hash_recomputes H bc.difficulty fuel _ _
        (mkBlock_hash H _ _ _ _ _) hblock
      rw [Blockchain.is_chain_valid]
      simp only
      rw [chain_valid_append H bc.difficulty bc.chain _ latest hlast]
      rw [Blockchain.is_chain_valid] at hvalid
      rw [hvalid]
      simp only [Bool.true_and, chain_step_ok, Bool.and_eq_true, beq_iff_eq]
      refine ⟨⟨hhash, ?_⟩, mine_block_pow H bc.difficulty fuel _ _ hblock⟩
      rw [hshape.2.2.2]
      rfl

/-- A valid one-block chain state with an empty mempool. -/
def bcW : Blockchain :=
  { chain := [b0W], difficulty := 0, mining_reward := 10, mempool := [] }

/-- The reward transaction synthesized when mining `bcW` for miner `"m"`
at time 0. -/
def rwdW : Tx :=
  { sender := some "system", recipient := some "m", amount := some 10,
    timestamp := some 0, signature := some "mining_reward",
    sender_public_key := none, transaction_id := none }

/-- The block mined from `bcW` under `H0` at difficulty 0. -/
def blkW : Block :=
  { index := 1, timestamp := 0, transactions := [rwdW], previous_hash := "x",
    nonce := 0, hash := "h" }

/-- The state after mining `bcW`. -/
def bcW2 : Blockchain :=
  { chain := [b0W, blkW], difficulty := 0, mining_reward := 10, mempool := [] }

/-- Witness for C5 at a concrete input: mining the valid one-block chain
`bcW` completes, the mined block meets the proof-of-work target, and the
extended chain is valid. -/
theorem C5_witness :
    pow_ok bcW.difficulty blkW.hash = true ∧
      Blockchain.is_chain_valid H0 bcW2 = true :=
  C5_mining_preserves_validity H0 bcW "m" 0 0 0 blkW bcW2 (by decide) (by decide)

/-- Counterexample for C5 as stated: on a chain that is already invalid
(broken previous-hash link), mining completes yet the full chain-validity
check still returns false afterwards, so the claim's unconditional "for
every chain" quantification fails. -/
theorem C5_counterexample :
    ((bcBad.mine_pending_transactions H0 "m" 0 0 0).map
      fun p => Blockchain.is_chain_valid H0 p.2) = some false := by decide

/-! ## C8: balance is invariant under permuting confirmed transactions -/

/-- The net effect of one confirmed transaction on an address's balance. -/
def tx_delta (address : String) (t : Tx) : Rat :=
  (if t.recipient == some address then t.amount.getD 0 else 0) +
    (if t.sender == some address then -(t.amount.getD 0) else 0)

theorem tx_step_eq (address : String) (balance : Rat) (t : Tx) :
    tx_step address balance t = balance + tx_delta address t := by
  unfold tx_step tx_delta
  by_cases hr : t.recipient == some address <;>
    by_cases hs : t.sender == some address <;>
      (simp [hr, hs]; try ring)

theorem foldl_tx_step (address : String) :
    ∀ (l : List Tx) (b : Rat),
      l.foldl (tx_step address) b = b + (l.map (tx_delta address)).sum
  | [], b => by simp
  | t :: ts, b => by
    rw [List.foldl_cons, foldl_tx_step address ts, tx_step_eq]
    simp [add_assoc]

theorem get_balance_eq_sum (bc : Blockchain) (address : String) :
    bc.get_balance address =
      ((bc.chain.flatMap (fun b => b.transactions)).map (tx_delta address)).sum := by
  rw [Blockchain.get_balance]
  have : ∀ (c : List Block) (init : Rat),
      c.foldl (fun bal b => b.transactions.foldl (tx_step address) bal) init =
        init + ((c.flatMap (fun b => b.transactions)).map (tx_delta address)).sum := by
    intro c
    induction c with
    | nil => simp
    | cons b rest ih =>
      intro init
      rw [List.foldl_cons, ih, foldl_tx_step]
      simp [add_assoc]
  rw [this]
  simp

/-- C8: `get_balance` depends only on the multiset of confirmed
transactions — for any two chain states whose flattened transaction lists
are permutations of each other, every address has the same balance. -/
theorem C8_get_balance_permutation_invariant (bc1 bc2 : Blockchain)
    (hperm : List.Perm (bc1.chain.flatMap (fun b => b.transactions))
      (bc2.chain.flatMap (fun b => b.transactions))) :
    ∀ address, bc1.get_balance address = bc2.get_balance address := by
  intro address
  rw [get_balance_eq_sum, get_balance_eq_sum]
  exact List.Perm.sum_eq (List.Perm.map (tx_delta address) hperm)

/-- A block holding the credit and the alice→bob transfer. -/
def blkBoth : Block :=
  { index := 0, timestamp := 0, previous_hash := "0", nonce := 0,
    hash := "x", transactions := [txCredit, txAlice] }

/-- A block holding only the alice→bob transfer. -/
def blkOnlyAlice : Block :=
  { index := 0, timestamp := 0, previous_hash := "0", nonce := 0,
    hash := "x", transactions := [txAlice] }

/-- A block holding only the credit. -/
def blkOnlyCredit : Block :=
  { index := 1, timestamp := 0, previous_hash := "x", nonce := 0,
    hash := "y", transactions := [txCredit] }

/-- A one-block chain holding the credit and the alice→bob transfer. -/
def bcA : Blockchain :=
  { chain := [blkBoth], difficulty := 0, mining_reward := 10, mempool := [] }

/-- The same two confirmed transactions split across two blocks in the
opposite order. -/
def bcB : Blockchain :=
  { chain := [blkOnlyAlice, blkOnlyCredit], difficulty := 0,
    mining_reward := 10, mempool := [] }

/-- Witness for C8 at a concrete input: reordering the two confirmed
transactions across blocks leaves alice's balance unchanged. -/
theorem C8_witness : bcA.get_balance "alice" = bcB.get_balance "alice" :=
  C8_get_balance_permutation_invariant bcA bcB
    (by exact List.Perm.swap txAlice txCredit []) "alice"

/-! ## C9: peer eviction in the maintenance pass -/

/-- The eviction condition of `_cleanup_dead_peers` as a Boolean. -/
def dead_peer_cond (current_time : Rat) (e : String × Peer) : Bool :=
  !e.2.is_connected && decide (3 ≤ e.2.connection_attempts) &&
    decide ((300 : Rat) < current_time - e.2.last_seen)

theorem cleanup_dead_peers_eq (current_time : Rat)
    (peers : List (String × Peer)) :
    cleanup_dead_peers current_time peers =
      peers.filter (fun e =>
        !((peers.filter (dead_peer_cond current_time)).map Prod.fst).contains e.1) :=
  rfl

/-- C9: the maintenance pass removes a peer entry iff it is disconnected,
has accumulated at least 3 failed connection attempts, and was last seen
more than 300 seconds before the current time; all other entries remain.
The peer dictionary has unique keys, stated as `Nodup` on the ids. -/
theorem C9_cleanup_dead_peers_membership (current_time : Rat)
    (peers : List (String × Peer)) (hkeys : (peers.map Prod.fst).Nodup) :
    ∀ e ∈ peers,
      (e ∈ cleanup_dead_peers current_time peers ↔
        ¬(e.2.is_connected = false ∧ 3 ≤ e.2.connection_attempts ∧
          (300 : Rat) < current_time - e.2.last_seen)) := by
  intro e he
  have hcond : ∀ p : String × Peer, dead_peer_cond current_time p = true ↔
      (p.2.is_connected = false ∧ 3 ≤ p.2.connection_attempts ∧
        (300 : Rat) < current_time - p.2.last_seen) := by
    intro p
    simp [dead_peer_cond, and_assoc]
  have hdead :
      ((peers.filter (dead_peer_cond current_time)).map Prod.fst).contains e.1
          = true ↔
        (e.2.is_connected = false ∧ 3 ≤ e.2.connection_attempts ∧
          (300 : Rat) < current_time - e.2.last_seen) := by
    rw [List.elem_iff]
    constructor
    · intro hmem
      obtain ⟨q, hq, hq1⟩ := List.mem_map.mp hmem
      obtain ⟨hqmem, hqcond⟩ := List.mem_filter.mp hq
      have hqe : q = e := List.inj_on_of_nodup_map hkeys hqmem he hq1
      exact (hcond e).mp (hqe ▸ hqcond)
    · intro hp
      exact List.mem_map.mpr
        ⟨e, List.mem_filter.mpr ⟨he, (hcond e).mpr hp⟩, rfl⟩
  rw [cleanup_dead_peers_eq]
  rw [List.mem_filter]
  simp only [he, true_and, Bool.not_eq_true']
  rw [← hdead]
  constructor
  · intro hfalse htrue
    rw [htrue] at hfalse
    cases hfalse
  · intro hnot
    cases hc : (((peers.filter (dead_peer_cond current_time)).map Prod.fst).contains e.1)
    · rfl
    · exact absurd hc hnot

/-- The scenario-D peer: disconnected, 3 failed attempts, last seen at
time 0. -/
def peerDead : Peer :=
  { address := "10.0.0.1", port := 8000, peer_id := "10.0.0.1:8000",
    last_seen := 0, connection_attempts := 3, is_connected := false }

/-- A healthy connected peer. -/
def peerLive : Peer :=
  { address := "10.0.0.2", port := 8001, peer_id := "10.0.0.2:8001",
    last_seen := 200, connection_attempts := 0, is_connected := true }

/-- A two-entry peer dictionary. -/
def peersW : List (String × Peer) :=
  [("10.0.0.1:8000", peerDead), ("10.0.0.2:8001", peerLive)]

/-- Witness for C9 at a concrete input: at time 301 (301 seconds after the
dead peer's last contact), the maintenance pass drops the disconnected
3-failure peer and keeps the connected one. -/
theorem C9_witness :
    ("10.0.0.1:8000", peerDead) ∉ cleanup_dead_peers 301 peersW ∧
      ("10.0.0.2:8001", peerLive) ∈ cleanup_dead_peers 301 peersW := by
  constructor
  · intro hmem
    exact (C9_cleanup_dead_peers_membership 301 peersW (by decide)
      ("10.0.0.1:8000", peerDead) (by decide)).mp hmem
      ⟨rfl, by decide, by norm_num [peerDead]⟩
  · exact (C9_cleanup_dead_peers_membership 301 peersW (by decide)
      ("10.0.0.2:8001", peerLive) (by decide)).mpr
      (by simp [peerLive])

/-! ## C7: pool capacity bound and rejection leaves the pool unchanged -/

/-- C7: when a transaction passes validation but the pending pool already
holds `max_pool_size` entries, `add_transaction` rejects it with the
pool-full reason and evicts nothing; moreover every rejection, for any
reason, leaves the pending pool exactly as it was. -/
theorem C7_pool_full_and_rejection_unchanged (verify : Tx → String → Bool)
    (txid : TxIdFun) (bc : Blockchain) (pool : TransactionPool) (t : Tx) :
    ((validate_transaction verify txid bc t).1 = true →
      pool.max_pool_size ≤ pool.pending_transactions.length →
      TransactionPool.add_transaction verify txid bc pool t
        = (false, "Transaction pool is full", pool)) ∧
    (∀ r msg pool2,
      TransactionPool.add_transaction verify txid bc pool t = (r, msg, pool2) →
      r = false → pool2 = pool) := by
  unfold TransactionPool.add_transaction
  constructor
  · intro hv hfull
    simp [hv, hfull]
  · intro r msg pool2 hres hr
    subst hr
    by_cases hv : (validate_transaction verify txid bc t).1
    · by_cases hfull : pool.max_pool_size ≤ pool.pending_transactions.length
      · simp only [hv, hfull, Bool.not_eq_true, if_true, ite_true, if_false,
          ite_false, not_true_eq_false, if_neg, not_false_eq_true, if_pos,
          Prod.mk.injEq] at hres
        exact hres.2.2.symm
      · simp only [hv, hfull, not_true_eq_false, if_neg, not_false_eq_true,
          if_pos, ite_false, ite_true, Prod.mk.injEq] at hres
        exact absurd hres.1 (by simp)
    · simp only [Bool.not_eq_true] at hv
      simp only [hv, Bool.false_eq_true, not_false_eq_true, if_pos,
        Prod.mk.injEq] at hres
      exact hres.2.2.symm

/-- A node-issued reward transaction accepted by the validator's system
branch. -/
def txMR : Tx :=
  { sender := some "system", recipient := some "alice", amount := some 1,
    timestamp := some 2, signature := some "mining_reward",
    sender_public_key := none, transaction_id := none }

/-- A pool with zero capacity (its pending list is at the bound). -/
def poolFull : TransactionPool :=
  { max_pool_size := 0, pending_transactions := [] }

/-- Witness for C7 at a concrete input: a validating transaction offered
to a full pool is rejected with the pool-full reason and the pool is
unchanged. -/
theorem C7_witness :
    TransactionPool.add_transaction verify0 txid0 bcC2 poolFull txMR
      = (false, "Transaction pool is full", poolFull) :=
  (C7_pool_full_and_rejection_unchanged verify0 txid0 bcC2 poolFull txMR).1
    (by decide) (by decide)

/-! ## C3: system/genesis sender signature allow-list -/

/-- Counterexample for C3 as stated: `txSYS` has every required field,
amount 1 > 0, distinct sender and recipient, sender `"system"`, and
signature `"SYSTEM"` — a member of the claim's four-value allow-list — yet
`validate_transaction` rejects it, because the branch accepting
`"SYSTEM"`/empty signatures (src/transaction.py lines 72-79) sits after
the line-67 branch that already returns for every `"system"` sender. -/
theorem C3_counterexample :
    validate_transaction verify0 txid0 bcC2 txSYS
      = (false, "Invalid system transaction signature") := by decide

/-- C3 (amended): for a transaction with all required fields, positive
amount, distinct sender and recipient, and sender `"system"` or
`"genesis"`, `validate_transaction` accepts iff the signature is
`"mining_reward"` or `"genesis_signature"` (not `"SYSTEM"` or the empty
string), and the outcome is independent of the chain state, the signature
verifier, and the id digest — i.e. the balance, signature, and
double-spend checks are skipped. -/
theorem C3_system_signature_allowlist (verify verify2 : Tx → String → Bool)
    (txid txid2 : TxIdFun) (bc bc2 : Blockchain) (t : Tx)
    (s r sig : String) (amt ts : Rat)
    (hs : t.sender = some s) (hr : t.recipient = some r)
    (hamt : t.amount = some amt) (hts : t.timestamp = some ts)
    (hsig : t.signature = some sig)
    (hpos : 0 < amt) (hne : s ≠ r) (hsys : s = "system" ∨ s = "genesis") :
    ((validate_transaction verify txid bc t).1 = true ↔
      (sig = "mining_reward" ∨ sig = "genesis_signature")) ∧
    validate_transaction verify2 txid2 bc2 t
      = validate_transaction verify txid bc t := by
  rcases hsys with hsys | hsys <;> subst hsys <;>
    constructor <;>
    (by_cases hsig2 : sig = "mining_reward" ∨ sig = "genesis_signature" <;>
      simp [validate_transaction, requiredFieldsPresent, hs, hr, hamt, hts,
        hsig, not_le.mpr hpos, hne, hsig2])

/-- Witness for C3 (amended) at a concrete input: the reward transaction
`txMR` (signature `"mining_reward"`) is accepted. -/
theorem C3_witness : (validate_transaction verify0 txid0 bcC2 txMR).1 = true :=
  (C3_system_signature_allowlist verify0 verify0 txid0 txid0 bcC2 bcC2 txMR
    "system" "alice" "mining_reward" 1 2 rfl rfl rfl rfl rfl (by decide)
    (by decide) (Or.inl rfl)).1.mpr (Or.inl rfl)

/-! ## C10: exactly one system transaction per mined block -/

/-- C10: `add_transaction_to_mempool` preserves the invariant that no
mempool entry has sender `"system"` (it rejects `"system"`/`"genesis"`
senders), and under that invariant every block produced by
`mine_pending_transactions` contains exactly one sender-`"system"`
transaction, placed last, whose recipient is the miner address, whose
amount is the configured mining reward, and whose signature is
`"mining_reward"`. -/
theorem C10_unique_system_reward :
    (∀ (bc : Blockchain) (t : Tx),
      (∀ u ∈ bc.mempool, u.sender ≠ some "system") →
      ∀ u ∈ (bc.add_transaction_to_mempool t).2.mempool,
        u.sender ≠ some "system") ∧
    (∀ (H : HashFun) (bc : Blockchain) (addr : String) (t1 t2 : Rat)
        (fuel : Nat) (blk : Block) (bc2 : Blockchain),
      (∀ u ∈ bc.mempool, u.sender ≠ some "system") →
      bc.mine_pending_transactions H addr t1 t2 fuel = some (blk, bc2) →
      blk.transactions.countP (fun u => u.sender == some "system") = 1 ∧
      (blk.transactions.getLast?).map
          (fun u => (u.sender, u.recipient, u.amount, u.signature))
        = some (some "system", some addr, some bc.mining_reward,
            some "mining_reward")) := by
  constructor
  · intro bc t hinv u hu
    unfold Blockchain.add_transaction_to_mempool at hu
    split at hu
    · exact hinv u hu
    · split at hu
      · exact hinv u hu
      · rename_i hfields hsender
        simp only at hu
        rcases List.mem_append.mp hu with hu | hu
        · exact hinv u hu
        · have : u = t := by simpa using hu
          subst this
          intro hsys
          exact hsender (by simp [hsys])
  · intro H bc addr t1 t2 fuel blk bc2 hinv hmine
    unfold Blockchain.mine_pending_transactions at hmine
    split at hmine
    · cases hmine
    · rename_i latest hlast
      simp only at hmine
      split at hmine
      · cases hmine
      · rename_i mined hblock
        obtain ⟨rfl, rfl⟩ : mined = blk ∧ _ = bc2 := by
          constructor
          · exact (Prod.mk.injEq _ _ _ _ ▸ Option.some_injective _ hmine).1
          · exact (Prod.mk.injEq _ _ _ _ ▸ Option.some_injective _ hmine).2
        have htxs := (mine_block_shape H bc.difficulty fuel _ _ hblock).2.2.1
        rw [htxs]
        have hnosys : ∀ u ∈ bc.get_pending_transactions 10,
            ¬ (u.sender == some "system") = true := by
          intro u hu
          simp only [beq_iff_eq]
          exact hinv u (List.take_subset 10 bc.mempool hu)
        constructor
        · show ((bc.get_pending_transactions 10 ++ [_]).countP _) = 1
          rw [List.countP_append]
          rw [List.countP_eq_zero.mpr hnosys]
          simp [List.countP_cons]
        · show ((bc.get_pending_transactions 10 ++ [_]).getLast?).map _ = _
          rw [List.getLast?_concat]
          simp

/-- Witness for C10 at a concrete input: the block mined from `bcW`
carries exactly one system transaction, in last position, rewarding the
miner `"m"` with the configured amount under signature
`"mining_reward"`. -/
theorem C10_witness :
    blkW.transactions.countP (fun u => u.sender == some "system") = 1 ∧
      (blkW.transactions.getLast?).map
          (fun u => (u.sender, u.recipient, u.amount, u.signature))
        = some (some "system", some "m", some bcW.mining_reward,
            some "mining_reward") :=
  C10_unique_system_reward.2 H0 bcW "m" 0 0 0 blkW bcW2
    (by simp [bcW]) (by decide)

/-! ## C2: resubmitting an identical transaction to the pool -/

/-- `txAlice` with the derived id assigned at admission (`txid0` digest). -/
def txAliceId : Tx :=
  { sender := some "alice", recipient := some "bob", amount := some 5,
    timestamp := some 1, signature := some "sig",
    sender_public_key := some "pk", transaction_id := some "id0" }

/-- The pool state after admitting `txAlice` once. -/
def poolC2_1 : TransactionPool :=
  { max_pool_size := 1000, pending_transactions := [txAliceId] }

/-- C2 fails on the code: the double-spend check inspects
`blockchain.mempool` (src/transaction.py lines 114-118) while
`TransactionPool.add_transaction` appends to its own
`pending_transactions` list (line 147), so submitting the identical
transaction twice is accepted both times and the pool holds the duplicate
twice — the claim requires the second submission to be rejected as a
double spend. -/
theorem C2_duplicate_resubmission_accepted :
    TransactionPool.add_transaction verify0 txid0 bcC2 poolC2 txAlice
        = (true, "Transaction added to pool", poolC2_1) ∧
      TransactionPool.add_transaction verify0 txid0 bcC2 poolC2_1 txAlice
        = (true, "Transaction added to pool",
            { max_pool_size := 1000,
              pending_transactions := [txAliceId, txAliceId] }) := by
  constructor <;>
    norm_num +decide [TransactionPool.add_transaction, validate_transaction,
      requiredFieldsPresent, check_sufficient_balance, Blockchain.get_balance,
      tx_step, check_double_spending, validate_signature, verify0, txid0, bcC2,
      poolC2, poolC2_1, txAlice, txAliceId, blkCredit, txCredit, txCore]

/-! ## C4: mempool after mining removes more than the mined prefix -/

/-- C4 fails on the code: with 11 pending transactions mined at batch
limit 10, the two slicing passes of `mine_pending_transactions`
(lines 128 and 148-149) each drop 10 entries, leaving an empty mempool,
whereas removing exactly the 10 mined entries must leave the eleventh
pending transaction (`userTx 10`). -/
theorem C4_double_removal_drops_extra :
    ((bc11.mine_pending_transactions H0 "m" 0 0 0).map fun p => p.2.mempool)
        = some [] ∧
      bc11.mempool.drop 10 = [userTx 10] := by decide

end Logsy
